import Mathlib

/-!
Shallow embedding of the vault engine of `password-wallet-cli`
(`src/vault.py`, class `PasswordVault`).

Modelling conventions:
* Python strings are Lean `String`; `str.lower()` is modelled characterwise
  by `Char.toLower` (ASCII case folding), as `py_lower`.
* The cryptography is modelled symbolically, matching the library contracts:
  PBKDF2 key derivation is deterministic in `(passphrase, salt)`, and keys
  are identified with their derivation inputs (hash collisions are not
  modelled).  Fernet is authenticated encryption: a ciphertext decrypts
  exactly under the key that produced it, and a truncated or partially
  written ciphertext never decrypts.  JSON serialization of the entry list
  is lossless, so a ciphertext carries its plaintext entry list directly.
* The filesystem visible to the vault is the pair of the salt file and the
  vault file (`FS`).  `os.urandom` is modelled by passing the fresh random
  bytes as an explicit argument.
* `self.entries` and `self.fernet` form the in-memory state (`Vault`).
* Exceptions: the only failing operation inside the modelled code is
  Fernet decryption (wrong key or malformed file); file I/O itself is
  assumed to succeed, as in every claim under scrutiny.
-/

/-- Salt bytes (`os.urandom(16)` output and the salt-file content). -/
abbrev Salt := List Nat

/-- Characterwise ASCII lowercasing, the model of Python `str.lower()`. -/
def py_lower (s : String) : String := String.mk (s.data.map Char.toLower)

/-- One password record, as stored in `self.entries` (a JSON dict with the
four fields written by `add_entry`). -/
structure Entry where
  site : String
  username : String
  password : String
  created_at : String
  deriving DecidableEq, Repr

/-- A derived symmetric key.  `PBKDF2HMAC(...).derive` is deterministic, so a
key is identified with the pair it was derived from. -/
structure Key where
  passphrase : String
  salt : Salt
  deriving DecidableEq, Repr

/-- Model of `PasswordVault._derive_key`. -/
def derive_key (password : String) (salt : Salt) : Key :=
  { passphrase := password, salt := salt }

/-- A Fernet token: authenticated ciphertext remembering the key that made it
and the serialized entry list it encrypts. -/
structure Ciphertext where
  key : Key
  plain : List Entry
  deriving DecidableEq, Repr

/-- Model of `Fernet(key).encrypt(data)` composed with `json.dumps`. -/
def fernet_encrypt (k : Key) (es : List Entry) : Ciphertext :=
  { key := k, plain := es }

/-- Model of `Fernet(key).decrypt` composed with `json.loads`: authenticated
decryption succeeds exactly under the encrypting key. -/
def fernet_decrypt (k : Key) (c : Ciphertext) : Option (List Entry) :=
  if c.key = k then some c.plain else none

/-- On-disk content of the vault file.  `_save_vault` opens the file with
mode `wb` (truncating it) and then writes the whole token, so mid-write the
file can be empty or hold a strict prefix of a token; only a completely
written token ever decrypts. -/
inductive VFile where
  | empty : VFile
  | part (c : Ciphertext) : VFile
  | full (c : Ciphertext) : VFile
  deriving DecidableEq, Repr

/-- Reading the vault file and decrypting it: anything short of a complete
token raises inside `Fernet.decrypt` (or `json.loads`). -/
def decrypt_file (k : Key) : VFile → Option (List Entry)
  | VFile.full c => fernet_decrypt k c
  | _ => none

/-- The two files the vault touches (`data/salt.key`, `data/vault.enc`);
`none` means the file does not exist. -/
structure FS where
  saltFile : Option Salt
  vaultFile : Option VFile
  deriving DecidableEq, Repr

/-- In-memory state of a `PasswordVault` object: `self.entries` and
`self.fernet` (`none` models `self.fernet is None`). -/
structure Vault where
  entries : List Entry
  fernet : Option Key
  deriving DecidableEq, Repr

/-- Model of `PasswordVault._get_or_create_salt`; `fresh` is the
`os.urandom(16)` value used if the salt file is absent. -/
def get_or_create_salt (fs : FS) (fresh : Salt) : Salt × FS :=
  match fs.saltFile with
  | some s => (s, fs)
  | none => (fresh, { fs with saltFile := some fresh })

/-- Model of `PasswordVault.vault_exists`. -/
def vault_exists (fs : FS) : Bool :=
  fs.vaultFile.isSome

/-- Model of `PasswordVault._save_vault`: serialize, encrypt, overwrite the
vault file; returns `False` without touching the file when no key is held. -/
def save_vault (fs : FS) (v : Vault) : Bool × FS :=
  match v.fernet with
  | none => (false, fs)
  | some k =>
      (true, { fs with vaultFile := some (VFile.full (fernet_encrypt k v.entries)) })

/-- The successive on-disk states the vault file passes through during one
call of `_save_vault`: the old state, then the truncation performed by
opening with mode `wb`, then a partially performed write, then the complete
token.  An interruption can strand the file at any element of this list. -/
def save_vault_trace (fs : FS) (v : Vault) : List FS :=
  match v.fernet with
  | none => [fs]
  | some k =>
      [fs,
       { fs with vaultFile := some VFile.empty },
       { fs with vaultFile := some (VFile.part (fernet_encrypt k v.entries)) },
       { fs with vaultFile := some (VFile.full (fernet_encrypt k v.entries)) }]

/-- Model of `PasswordVault.initialize_vault`. -/
def initialize_vault (master_password : String) (fresh : Salt) (fs : FS)
    (_v : Vault) : Bool × FS × Vault :=
  let r := get_or_create_salt fs fresh
  let k := derive_key master_password r.1
  let v1 : Vault := { entries := [], fernet := some k }
  let r2 := save_vault r.2 v1
  (r2.1, r2.2, v1)

/-- Model of `PasswordVault.unlock_vault`.  Faithful to the source order:
the key is derived and stored in `self.fernet` BEFORE decryption is
attempted; a decryption failure is caught and turned into `False`,
leaving `self.entries` untouched but `self.fernet` already overwritten. -/
def unlock_vault (master_password : String) (fresh : Salt) (fs : FS)
    (v : Vault) : Bool × FS × Vault :=
  match fs.vaultFile with
  | none => (false, fs, v)
  | some file =>
      let r := get_or_create_salt fs fresh
      let k := derive_key master_password r.1
      let v1 : Vault := { v with fernet := some k }
      match decrypt_file k file with
      | some es => (true, r.2, { v1 with entries := es })
      | none => (false, r.2, v1)

/-- Model of `PasswordVault._find_entry_index`: index of the first entry
whose lowercased site equals the lowercased argument. -/
def find_entry_index (site : String) : List Entry → Option Nat
  | [] => none
  | e :: rest =>
      if py_lower e.site = py_lower site then some 0
      else (find_entry_index site rest).map (· + 1)

/-- Model of `PasswordVault.add_entry`; `now` is the
`datetime.now().isoformat()` timestamp. -/
def add_entry (site username password now : String) (fs : FS)
    (v : Vault) : Bool × FS × Vault :=
  match v.fernet with
  | none => (false, fs, v)
  | some _ =>
      let new_entry : Entry :=
        { site := site, username := username, password := password,
          created_at := now }
      let entries1 :=
        match find_entry_index site v.entries with
        | some i => v.entries.set i new_entry
        | none => v.entries ++ [new_entry]
      let v1 : Vault := { v with entries := entries1 }
      let r := save_vault fs v1
      (r.1, r.2, v1)

/-- One row of `get_entries` output: by construction it has no password
field. -/
structure ListedEntry where
  site : String
  username : String
  created_at : String
  deriving DecidableEq, Repr

/-- Model of `PasswordVault.get_entries`. -/
def get_entries (v : Vault) : List ListedEntry :=
  v.entries.map fun e =>
    { site := e.site, username := e.username, created_at := e.created_at }

/-- One row of `search_entries` output, carrying the original index. -/
structure SearchMatch where
  index : Nat
  site : String
  username : String
  created_at : String
  deriving DecidableEq, Repr

/-- Python substring containment `needle in hay` on character lists. -/
def is_sub (needle : List Char) : List Char → Bool
  | [] => needle.isEmpty
  | c :: rest => needle.isPrefixOf (c :: rest) || is_sub needle rest

/-- The loop body of `PasswordVault.search_entries`, with `i` the running
`enumerate` counter. -/
def search_entries_from (kw : List Char) : Nat → List Entry → List SearchMatch
  | _, [] => []
  | i, e :: rest =>
      if is_sub kw (py_lower e.site).data then
        { index := i, site := e.site, username := e.username,
          created_at := e.created_at } :: search_entries_from kw (i + 1) rest
      else search_entries_from kw (i + 1) rest

/-- Model of `PasswordVault.search_entries`. -/
def search_entries (keyword : String) (v : Vault) : List SearchMatch :=
  search_entries_from (py_lower keyword).data 0 v.entries

/-- Model of `PasswordVault.get_password`. -/
def get_password (site : String) (v : Vault) : Option String :=
  (v.entries.find? fun e => py_lower e.site == py_lower site).map
    fun e => e.password

/-- Model of `PasswordVault.entry_exists`. -/
def entry_exists (site : String) (v : Vault) : Bool :=
  v.entries.any fun e => py_lower e.site == py_lower site

/-!
Theorems for the claims, in claim order, with helper lemmas first.
-/

/-- C1: initializing (or saving) the vault with a passphrase and then
unlocking it with the same passphrase succeeds and reproduces the record
set exactly — the same entries, in the same order, with the same fields.
The first conjunct covers `initialize_vault` (record set `[]`); the second
covers a save from any unlocked state whose key was derived, as always in
the program, from the salt on file. -/
theorem c1_round_trip (P : String) (R : List Entry) (s fresh fresh2 : Salt)
    (fs : FS) (v0 w0 : Vault) :
    ((initialize_vault P fresh fs w0).1 = true ∧
     (unlock_vault P fresh2 (initialize_vault P fresh fs w0).2.1 v0).1 = true ∧
     (unlock_vault P fresh2 (initialize_vault P fresh fs w0).2.1 v0).2.2.entries
       = ([] : List Entry)) ∧
    (fs.saltFile = some s →
     (save_vault fs { entries := R, fernet := some (derive_key P s) }).1 = true ∧
     (unlock_vault P fresh2
        (save_vault fs { entries := R, fernet := some (derive_key P s) }).2 v0).1
       = true ∧
     (unlock_vault P fresh2
        (save_vault fs { entries := R, fernet := some (derive_key P s) }).2 v0).2.2.entries
       = R) := by
  constructor
  · cases h : fs.saltFile <;>
      simp [initialize_vault, unlock_vault, get_or_create_salt, save_vault,
        decrypt_file, fernet_decrypt, fernet_encrypt, derive_key, h]
  · intro hsalt
    simp [unlock_vault, get_or_create_salt, save_vault, decrypt_file,
      fernet_decrypt, fernet_encrypt, derive_key, hsalt]

/-- Witness for C1 at a concrete vault: saving one github.com record under
passphrase "pw" and unlocking with "pw" reproduces it. -/
theorem c1_round_trip_witness :
    (FS.mk (some [0]) none).saltFile = some [0] ∧
    (unlock_vault "pw" [2]
      (save_vault (FS.mk (some [0]) none)
        { entries := [Entry.mk "github.com" "alice" "p1" "t"],
          fernet := some (derive_key "pw" [0]) }).2
      (Vault.mk [] none)).2.2.entries
      = [Entry.mk "github.com" "alice" "p1" "t"] :=
  ⟨rfl,
   ((c1_round_trip "pw" [Entry.mk "github.com" "alice" "p1" "t"] [0] [1] [2]
      (FS.mk (some [0]) none) (Vault.mk [] none) (Vault.mk [] none)).2 rfl).2.2⟩

/-- C2: once the vault file was encrypted under the key derived from
passphrase `P`, unlocking with any passphrase `Q ≠ P` returns failure.
Authenticated decryption fails because the derived keys differ. -/
theorem c2_wrong_passphrase (P Q : String) (s fresh : Salt) (R : List Entry)
    (fs : FS) (v0 : Vault) (hne : Q ≠ P) (hsalt : fs.saltFile = some s)
    (hfile : fs.vaultFile = some (VFile.full (fernet_encrypt (derive_key P s) R))) :
    (unlock_vault Q fresh fs v0).1 = false := by
  simp [unlock_vault, get_or_create_salt, decrypt_file, fernet_decrypt,
    fernet_encrypt, derive_key, hsalt, hfile, Key.mk.injEq, Ne.symm hne]

/-- Witness for C2: a vault written under "a" does not unlock under "b". -/
theorem c2_wrong_passphrase_witness :
    (unlock_vault "b" [3]
      (FS.mk (some [0]) (some (VFile.full (fernet_encrypt (derive_key "a" [0]) []))))
      (Vault.mk [] none)).1 = false :=
  c2_wrong_passphrase "a" "b" [0] [3] []
    (FS.mk (some [0]) (some (VFile.full (fernet_encrypt (derive_key "a" [0]) []))))
    (Vault.mk [] none) (by decide) rfl rfl

/-- C8: once the salt file holds `s`, every call of `_get_or_create_salt`
returns exactly `s` and leaves the filesystem untouched, so repeated calls
are idempotent and the salt is never regenerated or rewritten. -/
theorem c8_salt_idempotent (fs : FS) (s : Salt) (hsalt : fs.saltFile = some s) :
    ∀ fresh : Salt, get_or_create_salt fs fresh = (s, fs) := by
  intro fresh
  simp [get_or_create_salt, hsalt]

/-- Witness for C8 at a concrete salt file. -/
theorem c8_salt_idempotent_witness :
    get_or_create_salt (FS.mk (some [5]) none) [9] = ([5], FS.mk (some [5]) none) :=
  c8_salt_idempotent (FS.mk (some [5]) none) [5] rfl [9]

/-- C10: with no key in memory (`self.fernet` is `None`), `add_entry`
returns `False` and leaves the in-memory record set and the files
completely unchanged. -/
theorem c10_locked_add_entry (site username password now : String) (fs : FS)
    (v : Vault) (hlock : v.fernet = none) :
    add_entry site username password now fs v = (false, fs, v) := by
  simp [add_entry, hlock]

/-- Witness for C10 on a concrete locked vault. -/
theorem c10_locked_add_entry_witness :
    add_entry "a" "u" "p" "t" (FS.mk none none) (Vault.mk [] none)
      = (false, FS.mk none none, Vault.mk [] none) :=
  c10_locked_add_entry "a" "u" "p" "t" (FS.mk none none) (Vault.mk [] none) rfl

/-- C6: `get_entries` returns one element per stored entry, in record-set
order, carrying exactly the site, username and created_at fields; the
output type `ListedEntry` has no password field, so no password is ever
included. -/
theorem c6_get_entries (v : Vault) :
    (get_entries v).length = v.entries.length ∧
    ∀ i : Nat, (get_entries v)[i]? =
      (v.entries[i]?).map fun e => ListedEntry.mk e.site e.username e.created_at := by
  refine ⟨by simp [get_entries], fun i => ?_⟩
  simp [get_entries]

/-- Helper: `List.isPrefixOf` on characters means the list extends the
needle on the right. -/
theorem isPrefixOf_iff_append (needle l : List Char) :
    needle.isPrefixOf l = true ↔ ∃ post, l = needle ++ post := by
  induction needle generalizing l with
  | nil => simp [List.isPrefixOf]
  | cons a t ih =>
      cases l with
      | nil => simp [List.isPrefixOf]
      | cons b m =>
          simp only [List.isPrefixOf, Bool.and_eq_true, beq_iff_eq, ih]
          constructor
          · rintro ⟨rfl, post, rfl⟩
            exact ⟨post, rfl⟩
          · rintro ⟨post, h⟩
            obtain ⟨h1, h2⟩ := List.cons.inj h
            exact ⟨h1.symm, post, h2⟩

/-- Helper: `is_sub` decides Python substring containment: `is_sub n h`
holds exactly when `h` splits as some prefix, then `n`, then some suffix. -/
theorem is_sub_iff (needle hay : List Char) :
    is_sub needle hay = true ↔ ∃ pre post, hay = pre ++ needle ++ post := by
  induction hay with
  | nil =>
      simp only [is_sub, List.isEmpty_iff]
      constructor
      · rintro rfl
        exact ⟨[], [], rfl⟩
      · rintro ⟨pre, post, h⟩
        rcases List.append_eq_nil.mp ((List.append_assoc pre needle post ▸ h).symm)
          with ⟨h1, h2⟩
        exact (List.append_eq_nil.mp h2).1
  | cons c rest ih =>
      simp only [is_sub, Bool.or_eq_true, isPrefixOf_iff_append, ih]
      constructor
      · rintro (⟨post, h⟩ | ⟨pre, post, h⟩)
        · exact ⟨[], post, by simpa using h⟩
        · exact ⟨c :: pre, post, by simp [h]⟩
      · rintro ⟨pre, post, h⟩
        cases pre with
        | nil => exact Or.inl ⟨post, by simpa using h⟩
        | cons d pre2 =>
            rw [List.cons_append, List.cons_append] at h
            obtain ⟨h1, h2⟩ := List.cons.inj h
            exact Or.inr ⟨pre2, post, by simpa using h2⟩

/-- Helper: the `search_entries` loop at counter `i` filters the entries
enumerated from `i`, keeping order and original indices. -/
theorem search_entries_from_eq (kw : List Char) (i : Nat) (es : List Entry) :
    search_entries_from kw i es =
      ((List.enumFrom i es).filter fun p =>
          is_sub kw (py_lower p.2.site).data).map
        fun p => SearchMatch.mk p.1 p.2.site p.2.username p.2.created_at := by
  induction es generalizing i with
  | nil => simp [search_entries_from]
  | cons e rest ih =>
      by_cases h : is_sub kw (py_lower e.site).data <;>
        simp [search_entries_from, List.enumFrom, List.filter, h, ih]

/-- C7: `search_entries` returns exactly the entries whose lowercased site
contains the lowercased keyword as a substring, in record-set order, each
match carrying the entry's original index; the second conjunct pins down
the substring semantics of the matching function. -/
theorem c7_search (keyword : String) (v : Vault) :
    search_entries keyword v =
      ((v.entries.enum.filter fun p =>
          is_sub (py_lower keyword).data (py_lower p.2.site).data).map
        fun p => SearchMatch.mk p.1 p.2.site p.2.username p.2.created_at) ∧
    ∀ needle hay : List Char,
      is_sub needle hay = true ↔ ∃ pre post, hay = pre ++ needle ++ post :=
  ⟨by simp [search_entries, List.enum, search_entries_from_eq], is_sub_iff⟩

/-- Helper: `_find_entry_index` returns `None` exactly when no entry
matches the site case-insensitively. -/
theorem find_entry_index_eq_none (site : String) (es : List Entry) :
    find_entry_index site es = none ↔
      ∀ e ∈ es, py_lower e.site ≠ py_lower site := by
  induction es with
  | nil => simp [find_entry_index]
  | cons e rest ih =>
      by_cases h : py_lower e.site = py_lower site <;>
        simp [find_entry_index, h, ih]

/-- Helper: an index returned by `_find_entry_index` is in range and points
at an entry matching the site case-insensitively. -/
theorem find_entry_index_some (site : String) (es : List Entry) (i : Nat)
    (h : find_entry_index site es = some i) :
    ∃ hi : i < es.length, py_lower ((es.get ⟨i, hi⟩).site) = py_lower site := by
  induction es generalizing i with
  | nil => simp [find_entry_index] at h
  | cons e rest ih =>
      by_cases hc : py_lower e.site = py_lower site
      · simp [find_entry_index, hc] at h
        exact h ▸ ⟨Nat.succ_pos _, by simpa using hc⟩
      · simp [find_entry_index, hc] at h
        obtain ⟨j, hj, rfl⟩ := h
        obtain ⟨hlt, hget⟩ := ih j hj
        exact ⟨Nat.succ_lt_succ hlt, by simpa using hget⟩

/-- C4: when the vault is unlocked, `add_entry` replaces in place (at its
original position, record-set length unchanged) the entry whose site
matches case-insensitively if one exists, and otherwise appends a new
entry carrying the current timestamp at the end. -/
theorem c4_add_or_update (site username password now : String) (fs : FS)
    (v : Vault) (k : Key) (hk : v.fernet = some k) :
    ((∃ e ∈ v.entries, py_lower e.site = py_lower site) →
      ∃ i, ∃ hi : i < v.entries.length,
        py_lower ((v.entries.get ⟨i, hi⟩).site) = py_lower site ∧
        (add_entry site username password now fs v).2.2.entries
          = v.entries.set i (Entry.mk site username password now) ∧
        (add_entry site username password now fs v).2.2.entries.length
          = v.entries.length) ∧
    ((∀ e ∈ v.entries, py_lower e.site ≠ py_lower site) →
      (add_entry site username password now fs v).2.2.entries
        = v.entries ++ [Entry.mk site username password now]) := by
  constructor
  · intro hex
    cases hfind : find_entry_index site v.entries with
    | none =>
        rw [find_entry_index_eq_none] at hfind
        obtain ⟨e, he, hpe⟩ := hex
        exact absurd hpe (hfind e he)
    | some i =>
        obtain ⟨hi, hget⟩ := find_entry_index_some site v.entries i hfind
        exact ⟨i, hi, hget, by simp [add_entry, hk, hfind], by simp [add_entry, hk, hfind]⟩
  · intro hall
    have hfind : find_entry_index site v.entries = none :=
      (find_entry_index_eq_none site v.entries).mpr hall
    simp [add_entry, hk, hfind]

/-- Witness for C4: adding to an empty unlocked vault appends the new
entry with its timestamp. -/
theorem c4_add_or_update_witness :
    (add_entry "a" "u" "p" "t" (FS.mk (some [0]) none)
      (Vault.mk [] (some (derive_key "x" [0])))).2.2.entries
      = [Entry.mk "a" "u" "p" "t"] :=
  (c4_add_or_update "a" "u" "p" "t" (FS.mk (some [0]) none)
    (Vault.mk [] (some (derive_key "x" [0]))) (derive_key "x" [0]) rfl).2
    (by simp)

/-- C3 counterexample: unlocking a vault encrypted under passphrase "a"
with the wrong passphrase "b" returns failure, yet the in-memory cipher
field is left holding the key derived from "b" — a derived key IS retained
in memory after the failed call, because `unlock_vault` assigns
`self.fernet` before attempting decryption. -/
theorem c3_counterexample :
    (unlock_vault "b" [1]
      (FS.mk (some [0]) (some (VFile.full (fernet_encrypt (derive_key "a" [0]) []))))
      (Vault.mk [] none)).1 = false ∧
    (unlock_vault "b" [1]
      (FS.mk (some [0]) (some (VFile.full (fernet_encrypt (derive_key "a" [0]) []))))
      (Vault.mk [] none)).2.2.fernet = some (derive_key "b" [0]) := by
  decide

/-- C3 amended: whenever `unlock_vault` fails it returns a single boolean
failure and the record set is left unchanged; when the vault file is
missing the whole in-memory state is untouched; but when the vault file
exists and decryption fails, the cipher field is left set to the key
derived from the attempted passphrase rather than being cleared. -/
theorem c3_failed_unlock (P : String) (fresh : Salt) (fs : FS) (v : Vault)
    (hfail : (unlock_vault P fresh fs v).1 = false) :
    (unlock_vault P fresh fs v).2.2.entries = v.entries ∧
    (fs.vaultFile = none → (unlock_vault P fresh fs v).2.2 = v) ∧
    (∀ file, fs.vaultFile = some file →
      (unlock_vault P fresh fs v).2.2.fernet
        = some (derive_key P (get_or_create_salt fs fresh).1)) := by
  cases hv : fs.vaultFile with
  | none => simp [unlock_vault, hv]
  | some file =>
      cases hd : decrypt_file (derive_key P (get_or_create_salt fs fresh).1) file with
      | some es =>
          exfalso
          simp [unlock_vault, hv, hd] at hfail
      | none => simp [unlock_vault, hv, hd]

/-- Witness for the amended C3: a concrete failed unlock leaves the record
set unchanged. -/
theorem c3_failed_unlock_witness :
    (unlock_vault "b" [1]
      (FS.mk (some [0])
        (some (VFile.full (fernet_encrypt (derive_key "a" [0])
          [Entry.mk "s" "u" "p" "t"]))))
      (Vault.mk [] none)).2.2.entries = [] :=
  (c3_failed_unlock "b" [1]
    (FS.mk (some [0])
      (some (VFile.full (fernet_encrypt (derive_key "a" [0])
        [Entry.mk "s" "u" "p" "t"]))))
    (Vault.mk [] none) (by decide)).1

/-- Concrete filesystem used to exhibit the non-atomic save: the vault file
currently holds an older snapshot. -/
def c5fs : FS :=
  { saltFile := some [0],
    vaultFile := some (VFile.full (fernet_encrypt (derive_key "a" [0]) [])) }

/-- Concrete unlocked in-memory state about to be saved over `c5fs`. -/
def c5vault : Vault :=
  { entries := [Entry.mk "s" "u" "p" "t"], fernet := some (derive_key "a" [0]) }

/-- C5 counterexample: during a save, the vault file passes through the
truncated state created by opening with mode `wb`; that reachable state is
neither the old content nor the new complete snapshot, and it does not
decrypt even under the correct key — so a mid-write interruption leaves a
partial (here empty) vault file. -/
theorem c5_counterexample :
    (save_vault_trace c5fs c5vault)[1]?
      = some { c5fs with vaultFile := some VFile.empty } ∧
    some VFile.empty ≠ c5fs.vaultFile ∧
    some VFile.empty ≠ (save_vault c5fs c5vault).2.vaultFile ∧
    decrypt_file (derive_key "a" [0]) VFile.empty = none := by
  decide

/-- C5 amended: a completed save does replace the vault file with the
complete encrypted snapshot of the entire record set, but the write is not
atomic: the trace of one save passes through the truncated-file state, so
an interruption mid-write can leave a partial file instead of the old
content. -/
theorem c5_save_not_atomic (fs : FS) (v : Vault) (k : Key)
    (hk : v.fernet = some k) :
    save_vault fs v
      = (true, { fs with vaultFile := some (VFile.full (fernet_encrypt k v.entries)) }) ∧
    (save_vault_trace fs v).getLast?
      = some { fs with vaultFile := some (VFile.full (fernet_encrypt k v.entries)) } ∧
    { fs with vaultFile := some VFile.empty } ∈ save_vault_trace fs v := by
  refine ⟨by simp [save_vault, hk], by simp [save_vault_trace, hk], ?_⟩
  simp [save_vault_trace, hk]

/-- Witness for the amended C5 on the concrete states. -/
theorem c5_save_not_atomic_witness :
    { c5fs with vaultFile := some VFile.empty } ∈ save_vault_trace c5fs c5vault :=
  (c5_save_not_atomic c5fs c5vault (derive_key "a" [0]) rfl).2.2

/-- Concrete unlocked state used to show the absence of input validation. -/
def c9vault : Vault :=
  { entries := [], fernet := some (derive_key "a" [0]) }

/-- Concrete filesystem matching `c9vault`. -/
def c9fs : FS :=
  { saltFile := some [0],
    vaultFile := some (VFile.full (fernet_encrypt (derive_key "a" [0]) [])) }

/-- C9 counterexample: `add_entry` accepts an empty site — a malformed
input by the specification — reports success, stores the entry in memory
and persists it, instead of rejecting it before any change to persisted
state. -/
theorem c9_counterexample :
    (add_entry "" "u" "p" "t" c9fs c9vault).1 = true ∧
    (add_entry "" "u" "p" "t" c9fs c9vault).2.2.entries
      = [Entry.mk "" "u" "p" "t"] ∧
    (add_entry "" "u" "p" "t" c9fs c9vault).2.1.vaultFile
      = some (VFile.full (fernet_encrypt (derive_key "a" [0])
          [Entry.mk "" "u" "p" "t"])) := by
  decide

/-- C9 amended: the vault layer performs no input validation at all: for
every input, including empty required fields, `add_entry` on an unlocked
vault reports success and stores the new entry; rejection of empty fields
happens only in the out-of-scope interactive layer, and the only
precondition `add_entry` itself enforces is that a key is held. -/
theorem c9_no_validation (site username password now : String) (fs : FS)
    (v : Vault) (k : Key) (hk : v.fernet = some k) :
    (add_entry site username password now fs v).1 = true ∧
    Entry.mk site username password now
      ∈ (add_entry site username password now fs v).2.2.entries := by
  cases hfind : find_entry_index site v.entries with
  | none => simp [add_entry, hk, hfind, save_vault]
  | some i =>
      obtain ⟨hi, _⟩ := find_entry_index_some site v.entries i hfind
      have hmem : Entry.mk site username password now
          ∈ v.entries.set i (Entry.mk site username password now) := by
        rw [List.mem_iff_getElem]
        exact ⟨i, by simpa using hi, by simp⟩
      exact ⟨by simp [add_entry, hk, hfind, save_vault],
             by simpa [add_entry, hk, hfind] using hmem⟩

/-- Witness for the amended C9: the empty-site entry really ends up
stored. -/
theorem c9_no_validation_witness :
    Entry.mk "" "u" "p" "t"
      ∈ (add_entry "" "u" "p" "t" c9fs c9vault).2.2.entries :=
  (c9_no_validation "" "u" "p" "t" c9fs c9vault (derive_key "a" [0]) rfl).2
